import Mathlib

/-!
Shallow embedding of the retrieval core of the legal_search repository.

The embedded code lives in:
* src/court_forms_agent.py — CourtFormsAgent: create_query_embedding,
  _clean_title_to_english, search_vector_database, _manual_similarity_search;
* src/comprehensive_legal_crawler.py — create_embeddings;
* src/simple_robust_crawler.py — store_forms_in_supabase;
* src/create_supabase_tables.py — the crawled_pages schema with its
  UNIQUE(url, chunk_number) constraint.

Numeric vectors are modelled over ℚ (the Python code computes with floats;
the exact real value of a cosine similarity is irrational in general, so the
similarity kernel itself is a parameter of the search model while every
branch, guard, filter, sort and truncation around it is embedded exactly).
-/

/-- Whitespace characters recognised by Python's regex class \s and by
str.strip restricted to the ASCII range (the code strips all non-ASCII
characters before any whitespace handling). -/
def pyWs (c : Char) : Bool :=
  c = ' ' || c = '\t' || c = '\n' || c = '\r' || c = '\x0b' || c = '\x0c' ||
  c = '\x1c' || c = '\x1d' || c = '\x1e' || c = '\x1f'

/-- Remove every non-overlapping occurrence of the pattern p :: ps from a
character list, scanning left to right: the model of
re.sub(pat, r-two-quotes, s) for a literal pattern, used by
_clean_title_to_english (court_forms_agent.py lines 72-87). -/
def removeAll (p : Char) (ps : List Char) : List Char → List Char
  | [] => []
  | c :: cs =>
    if (p :: ps).isPrefixOf (c :: cs) then
      removeAll p ps (cs.drop ps.length)
    else
      c :: removeAll p ps cs
termination_by s => s.length
decreasing_by
  · simp only [List.length_cons, List.length_drop]
    omega
  · simp only [List.length_cons]
    omega

/-- Apply removeAll for a pattern given as a string; the empty pattern does
not occur in the source. -/
def removeAllStr (pat : String) (s : List Char) : List Char :=
  match pat.data with
  | [] => s
  | p :: ps => removeAll p ps s

/-- Collapse every maximal run of whitespace to a single space: the model of
re.sub applied to the one-or-more-whitespace pattern with a single-space
replacement (court_forms_agent.py line 93). -/
def collapseWs : List Char → List Char
  | [] => []
  | c :: cs =>
    if pyWs c then ' ' :: collapseWs (cs.dropWhile pyWs)
    else c :: collapseWs cs
termination_by s => s.length
decreasing_by
  · have h := (List.dropWhile_suffix (l := cs) pyWs).length_le
    simp only [List.length_cons]
    omega
  · simp only [List.length_cons]
    omega

/-- Drop trailing characters satisfying q (working from the right end). -/
def dropTrailing (q : Char → Bool) (s : List Char) : List Char :=
  (s.reverse.dropWhile q).reverse

/-- The normalisation pipeline of _clean_title_to_english on the raw
character list, in source order (court_forms_agent.py lines 72-97): remove
the six literal language-marker substrings, delete all non-ASCII
characters, collapse whitespace runs to single spaces, strip the left end
(str.strip's leading side), strip trailing whitespace (str.strip's
trailing side), then drop trailing commas and whitespace. -/
def cleanCore (s : List Char) : List Char :=
  dropTrailing (fun c => pyWs c || c = ',')
    (dropTrailing pyWs
      ((collapseWs
        ((removeAllStr "Tagalog"
          (removeAllStr "اَلْعَرَبِيَّةُ"
            (removeAllStr "Tiếng Việt"
              (removeAllStr "español"
                (removeAllStr "한국어"
                  (removeAllStr "汉语" s)))))).filter
          (fun c => c.toNat < 128))).dropWhile pyWs))

/-- Model of CourtFormsAgent._clean_title_to_english
(court_forms_agent.py lines 63-99): on empty input return "Unknown Form";
otherwise run the normalisation pipeline and return "Unknown Form" when it
leaves nothing. -/
def cleanTitleToEnglish (title : String) : String :=
  if title = "" then "Unknown Form"
  else if cleanCore title.data = [] then "Unknown Form"
  else String.mk (cleanCore title.data)

/-- The metadata keys that the retrieval code reads from a record's JSON
metadata mapping; each is optional, mirroring dict.get with a default. -/
structure Meta where
  title? : Option String
  form_code? : Option String
  topic? : Option String
deriving DecidableEq

/-- The embedding column value as seen by the fallback scan: either a value
that ast.literal_eval parses into a numeric vector, or text it cannot
parse (which makes the loop body raise and skip the record). -/
inductive EmbField where
  | vec (v : List ℚ)
  | junk (s : String)
deriving DecidableEq

/-- A row of the crawled_pages table as selected by the fallback scan
(id, url, content, metadata, embedding). -/
structure StoredRecord where
  id : ℕ
  url : String
  content : String
  meta : Meta
  embedding : EmbField
deriving DecidableEq

/-- The result dictionary built by search_vector_database and
_manual_similarity_search (title, url, form_code, topic, content,
similarity, metadata). -/
structure SearchResult where
  title : String
  url : String
  form_code : String
  topic : String
  content : String
  similarity : ℚ
  meta : Meta
deriving DecidableEq

/-- A row returned by the match_crawled_pages RPC: record fields plus a
server-computed similarity score. -/
structure RpcItem where
  url : String
  content : String
  meta : Meta
  similarity : ℚ
deriving DecidableEq

/-- Dot product of two rational vectors (np.dot on equal-length 1-d
arrays). -/
def dotQ (xs ys : List ℚ) : ℚ :=
  (List.zipWith (fun a b => a * b) xs ys).sum

/-- Parse a stored embedding for use against the query vector q: junk text
fails to parse (ast.literal_eval raises) and a numeric vector of a length
different from the query's makes np.dot raise; both exceptions are caught
by the loop's per-record handler, so both cases yield none. -/
def parseEmbedding (q : List ℚ) (e : EmbField) : Option (List ℚ) :=
  match e with
  | .junk _ => none
  | .vec v => if v.length = q.length then some v else none

/-- Build the result dictionary for a stored record at a given similarity,
as in court_forms_agent.py lines 185-196: the title is cleaned, missing
metadata keys default to "Unknown Form" for the title and the empty string
for form_code and topic. -/
def formatResult (r : StoredRecord) (s : ℚ) : SearchResult :=
  { title := cleanTitleToEnglish (r.meta.title?.getD "Unknown Form")
    url := r.url
    form_code := r.meta.form_code?.getD ""
    topic := r.meta.topic?.getD ""
    content := r.content
    similarity := s
    meta := r.meta }

/-- Score one scanned record without the threshold test: parse its
embedding, apply the positive-norm guard (a norm is positive exactly when
the corresponding sum of squares is), and hand the two vectors to the
similarity kernel sim, which models the floating-point cosine value
dot(q, e) / (norm q * norm e) computed at lines 176-182. Records failing
the parse or the guard produce nothing. -/
def scoreRecord (sim : List ℚ → List ℚ → ℚ) (q : List ℚ) (r : StoredRecord) :
    Option SearchResult :=
  match parseEmbedding q r.embedding with
  | none => none
  | some e =>
    if 0 < dotQ q q ∧ 0 < dotQ e e then some (formatResult r (sim q e))
    else none

/-- The loop body of _manual_similarity_search for one record: score it and
keep it only when the similarity clears the threshold
(court_forms_agent.py lines 169-196). -/
def processRecord (sim : List ℚ → List ℚ → ℚ) (q : List ℚ) (t : ℚ)
    (r : StoredRecord) : Option SearchResult :=
  match scoreRecord sim q r with
  | none => none
  | some res => if t ≤ res.similarity then some res else none

/-- Ranking order used by the final sort: descending by similarity
(sort with reverse=True on the similarity key, line 203). -/
def simOrd (a b : SearchResult) : Prop :=
  b.similarity ≤ a.similarity

instance : DecidableRel simOrd := fun a b =>
  inferInstanceAs (Decidable (b.similarity ≤ a.similarity))

instance : IsTotal SearchResult simOrd :=
  ⟨fun a b => le_total b.similarity a.similarity⟩

instance : IsTrans SearchResult simOrd :=
  ⟨fun _ _ _ h1 h2 => le_trans h2 h1⟩

/-- The scan bound of the fallback search: at most min(1000, limit * 20)
records are requested from the store (court_forms_agent.py line 161). -/
def scanCap (limit : ℕ) : ℕ := min 1000 (limit * 20)

/-- The records the fallback scan actually reads: the bounded window of the
table, in insertion order. -/
def scannedRecords (corpus : List StoredRecord) (limit : ℕ) :
    List StoredRecord :=
  corpus.take (scanCap limit)

/-- Body of _manual_similarity_search once the scan has returned data: on
no rows return the empty list; otherwise score and threshold-filter each
row in scan order, sort the survivors by descending similarity with a
stable sort (Python's list.sort is stable, and with reverse=True ties keep
their original order), and return the first limit entries
(court_forms_agent.py lines 163-204). -/
def manualSearchData (sim : List ℚ → List ℚ → ℚ) (q : List ℚ)
    (data : List StoredRecord) (limit : ℕ) (t : ℚ) : List SearchResult :=
  if data = [] then []
  else
    (List.insertionSort simOrd
      (data.filterMap (processRecord sim q t))).take limit

/-- Model of _manual_similarity_search (court_forms_agent.py lines
152-208): the whole body runs inside one handler, so a store failure while
scanning yields the empty list; otherwise the bounded window of the table
is processed by manualSearchData. -/
def manualSimilaritySearchRun (sim : List ℚ → List ℚ → ℚ) (q : List ℚ)
    (db : Except Unit (List StoredRecord)) (limit : ℕ) (t : ℚ) :
    List SearchResult :=
  match db with
  | .error _ => []
  | .ok corpus => manualSearchData sim q (scannedRecords corpus limit) limit t

/-- Format one RPC row, keeping it only when its similarity clears the
threshold (court_forms_agent.py lines 124-138). -/
def formatRpcItem (t : ℚ) (it : RpcItem) : Option SearchResult :=
  if t ≤ it.similarity then
    some
      { title := cleanTitleToEnglish (it.meta.title?.getD "Unknown Form")
        url := it.url
        form_code := it.meta.form_code?.getD ""
        topic := it.meta.topic?.getD ""
        content := it.content
        similarity := it.similarity
        meta := it.meta }
  else none

/-- The primary-path formatting step: threshold-filter and format the rows
returned by the match_crawled_pages RPC. -/
def formatPrimary (items : List RpcItem) (t : ℚ) : List SearchResult :=
  items.filterMap (formatRpcItem t)

/-- Model of CourtFormsAgent.search_vector_database (court_forms_agent.py
lines 101-150) for an initialized client. The embedder is the pure
function embed (create_query_embedding never raises, see
createQueryEmbedding below); the RPC outcome and the table state are
parameters. On an RPC error, or on an empty RPC result, the fallback
search runs on the embedding of the same query text; otherwise the RPC
rows are threshold-filtered and formatted. -/
def searchVectorDatabase (sim : List ℚ → List ℚ → ℚ)
    (embed : String → List ℚ) (rpc : Except Unit (List RpcItem))
    (db : Except Unit (List StoredRecord)) (query : String) (limit : ℕ)
    (t : ℚ) : List SearchResult :=
  match rpc with
  | .ok data =>
    if data = [] then manualSimilaritySearchRun sim (embed query) db limit t
    else formatPrimary data t
  | .error _ => manualSimilaritySearchRun sim (embed query) db limit t

/-- External calls made by search_vector_database, in order. -/
inductive SearchStep where
  | embedCall (text : String)
  | rpcCall
  | fallbackScan
deriving DecidableEq

/-- The sequence of external calls search_vector_database performs for a
query, following its control flow: it always embeds the query first, then
issues the RPC; on an RPC error it embeds the query again and scans
(line 150); on an empty RPC result it scans with the cached vector
(line 144); on a non-empty result it makes no further call. -/
def searchTrace (rpc : Except Unit (List RpcItem)) (query : String) :
    List SearchStep :=
  [SearchStep.embedCall query, SearchStep.rpcCall] ++
    match rpc with
    | .ok data =>
      if data = [] then [SearchStep.fallbackScan] else []
    | .error _ => [SearchStep.embedCall query, SearchStep.fallbackScan]

/-- Model of create_embeddings (comprehensive_legal_crawler.py lines
170-178): the sentence-transformer encode call either succeeds with one
vector per input or fails as a whole, in which case the handler substitutes
one 384-dimensional zero vector per input and the call returns normally. -/
def createEmbeddings (encode : List String → Except Unit (List (List ℚ)))
    (texts : List String) : List (List ℚ) :=
  match encode texts with
  | .ok vs => vs
  | .error _ => List.replicate texts.length (List.replicate 384 0)

/-- Model of CourtFormsAgent.create_query_embedding (court_forms_agent.py
lines 54-61): embed one query; on an internal failure return the
384-dimensional zero vector instead of raising. -/
def createQueryEmbedding (encode1 : String → Except Unit (List ℚ))
    (query : String) : List ℚ :=
  match encode1 query with
  | .ok v => v
  | .error _ => List.replicate 384 0

/-- A document built by store_forms_in_supabase for insertion into
crawled_pages (simple_robust_crawler.py lines 116-137). -/
structure Doc where
  url : String
  chunk_number : ℕ
  content : String
  meta : Meta
  source_id : String
  embedding : List ℚ
deriving DecidableEq

/-- The key protected by the crawled_pages uniqueness constraint
UNIQUE(url, chunk_number) (create_supabase_tables.py line 35). -/
def docKey (d : Doc) : String × ℕ := (d.url, d.chunk_number)

/-- The stored table, in insertion order. -/
abbrev DocTable := List Doc

/-- True when some stored row already uses the key k. -/
def hasKey (db : DocTable) (k : String × ℕ) : Bool :=
  db.any (fun d => docKey d = k)

/-- Number of stored rows with key k. -/
def countKey (db : DocTable) (k : String × ℕ) : ℕ :=
  (db.filter (fun d => docKey d = k)).length

/-- An atomic multi-row INSERT into crawled_pages: Postgres inserts all
rows or none, failing with a duplicate-key error when a row's
(url, chunk_number) collides with an existing row or with another row of
the same statement. -/
def insertBatch (db : DocTable) (batch : List Doc) : Except Unit DocTable :=
  if batch.any (fun d => hasKey db (docKey d)) ∨ ¬ (batch.map docKey).Nodup
  then .error ()
  else .ok (db ++ batch)

/-- The batch size used by the storage loop (simple_robust_crawler.py line
140). -/
def batchSize : ℕ := 5

/-- Split the document list into consecutive batches of five, as
range(0, len(documents), batch_size) does. -/
def chunks5 : List Doc → List (List Doc)
  | [] => []
  | d :: ds => ((d :: ds).take batchSize) :: chunks5 (ds.drop (batchSize - 1))
termination_by l => l.length
decreasing_by
  simp only [List.length_cons]
  have h := List.length_drop (batchSize - 1) ds
  omega

/-- Store one batch (simple_robust_crawler.py lines 143-161): try the
batch insert; count all its rows when it succeeds; on failure retry each
document individually, counting successes and swallowing every per-document
error (a duplicate-key conflict is silently skipped, any other error is
only printed). Returns the new table and the number of rows stored. -/
def storeBatch (db : DocTable) (batch : List Doc) : DocTable × ℕ :=
  match insertBatch db batch with
  | .ok db2 => (db2, batch.length)
  | .error _ =>
    batch.foldl
      (fun st d =>
        match insertBatch st.1 [d] with
        | .ok db2 => (db2, st.2 + 1)
        | .error _ => st)
      (db, 0)

/-- The batch loop of store_forms_in_supabase: fold storeBatch over the
batches, accumulating the stored count. -/
def storeLoop (db : DocTable) (bs : List (List Doc)) : DocTable × ℕ :=
  bs.foldl
    (fun st batch =>
      ((storeBatch st.1 batch).1, st.2 + (storeBatch st.1 batch).2))
    (db, 0)

/-- Model of store_forms_in_supabase from the documents level down
(simple_robust_crawler.py lines 139-165): process the batches in order,
accumulating the stored count, and return true (the batch loop swallows
every insertion error, so the surrounding handler is not reached). -/
def storeForms (db : DocTable) (docs : List Doc) : DocTable × ℕ × Bool :=
  ((storeLoop db (chunks5 docs)).1, (storeLoop db (chunks5 docs)).2, true)

/-- Sample metadata used to evaluate the model on concrete inputs. -/
def sampleMeta : Meta := ⟨some "T1", some "F1", some "divorce"⟩

/-- A stored record with a parseable one-dimensional embedding. -/
def rec1 : StoredRecord := ⟨1, "u1", "c1", sampleMeta, .vec [2]⟩

/-- A stored record whose embedding is the zero vector. -/
def recZero : StoredRecord := ⟨0, "u0", "c0", ⟨none, none, none⟩, .vec [0, 0]⟩

/-- A stored record whose embedding cannot be parsed. -/
def recJunk : StoredRecord := ⟨2, "u2", "c2", ⟨none, none, none⟩, .junk "bad"⟩

/-- A constant similarity kernel used for concrete evaluation. -/
def simHalf : List ℚ → List ℚ → ℚ := fun _ _ => 1/2

/-- The constantly-zero similarity kernel used for concrete evaluation. -/
def simZero : List ℚ → List ℚ → ℚ := fun _ _ => 0

/-- A constant embedder used for concrete evaluation. -/
def embedOne : String → List ℚ := fun _ => [1]

/-- A document with key ("u", 0) and content "A". -/
def docA : Doc := ⟨"u", 0, "A", ⟨none, none, none⟩, "src", [1]⟩

/-- A document with the same key ("u", 0) but content "B". -/
def docB : Doc := ⟨"u", 0, "B", ⟨none, none, none⟩, "src", [1]⟩

/-- A per-text embedder returning the 384-dimensional zero vector, used to
instantiate the embedding-shape theorem concretely. -/
def embedZeros : String → List ℚ := fun _ => List.replicate 384 0

/-- A batch encoder that always succeeds pointwise with embedZeros. -/
def encodeZeros : List String → Except Unit (List (List ℚ)) :=
  fun ts => .ok (ts.map embedZeros)

/-- A single-text encoder that always succeeds with embedZeros. -/
def encode1Zeros : String → Except Unit (List ℚ) :=
  fun s => .ok (embedZeros s)

/-! ## Generic helper lemmas about the search pipeline -/

theorem formatResult_similarity (r : StoredRecord) (s : ℚ) :
    (formatResult r s).similarity = s := rfl

theorem processRecord_parse_none {sim : List ℚ → List ℚ → ℚ} {q : List ℚ}
    {t : ℚ} {r : StoredRecord} (h : parseEmbedding q r.embedding = none) :
    processRecord sim q t r = none := by
  unfold processRecord scoreRecord
  rw [h]

theorem scoreRecord_eq_some {sim : List ℚ → List ℚ → ℚ} {q : List ℚ}
    {r : StoredRecord} {res : SearchResult}
    (h : scoreRecord sim q r = some res) :
    ∃ e, parseEmbedding q r.embedding = some e ∧ 0 < dotQ q q ∧
      0 < dotQ e e ∧ res = formatResult r (sim q e) := by
  unfold scoreRecord at h
  cases hp : parseEmbedding q r.embedding with
  | none => rw [hp] at h; cases h
  | some e =>
    rw [hp] at h
    dsimp only at h
    by_cases hg : 0 < dotQ q q ∧ 0 < dotQ e e
    · rw [if_pos hg] at h
      injection h with h2
      exact ⟨e, rfl, hg.1, hg.2, h2.symm⟩
    · rw [if_neg hg] at h
      cases h

theorem processRecord_eq_some {sim : List ℚ → List ℚ → ℚ} {q : List ℚ}
    {t : ℚ} {r : StoredRecord} {res : SearchResult}
    (h : processRecord sim q t r = some res) :
    scoreRecord sim q r = some res ∧ t ≤ res.similarity := by
  unfold processRecord at h
  cases hs : scoreRecord sim q r with
  | none => rw [hs] at h; cases h
  | some res2 =>
    rw [hs] at h
    dsimp only at h
    by_cases ht : t ≤ res2.similarity
    · rw [if_pos ht] at h
      injection h with h2
      subst h2
      exact ⟨hs ▸ rfl, ht⟩
    · rw [if_neg ht] at h
      cases h

theorem mem_manualSearchData {sim : List ℚ → List ℚ → ℚ} {q : List ℚ}
    {data : List StoredRecord} {k : ℕ} {t : ℚ} {res : SearchResult}
    (h : res ∈ manualSearchData sim q data k t) :
    ∃ rec, rec ∈ data ∧ processRecord sim q t rec = some res := by
  unfold manualSearchData at h
  split_ifs at h with hd
  · cases h
  · have h1 : res ∈ List.insertionSort simOrd
        (data.filterMap (processRecord sim q t)) :=
      (List.take_sublist k _).subset h
    have h2 : res ∈ data.filterMap (processRecord sim q t) :=
      (List.perm_insertionSort simOrd _).subset h1
    exact List.mem_filterMap.mp h2

theorem filterMap_filter_of_none {α β : Type} (f : α → Option β)
    (g : α → Bool) (hfg : ∀ x, g x = false → f x = none) :
    ∀ l : List α, l.filterMap f = (l.filter g).filterMap f
  | [] => rfl
  | x :: xs => by
    cases hg : g x with
    | false =>
      simp [List.filterMap_cons, List.filter_cons, hg, hfg x hg,
        filterMap_filter_of_none f g hfg xs]
    | true =>
      simp [List.filterMap_cons, List.filter_cons, hg,
        filterMap_filter_of_none f g hfg xs]

/-! ## Claim theorems -/

/-- C1: for every query text, when the match_crawled_pages RPC raises or
returns no rows, search_vector_database runs the client-side fallback on
the embedding of the same query text, and the call never raises: a store
failure inside the fallback, an empty table, or no candidate clearing the
threshold all yield the empty list rather than an exception. -/
theorem c1_fallback_on_error_or_empty (sim : List ℚ → List ℚ → ℚ)
    (embed : String → List ℚ) (rpc : Except Unit (List RpcItem))
    (db : Except Unit (List StoredRecord)) (query : String) (k : ℕ)
    (t : ℚ) :
    ((rpc = .error () ∨ rpc = .ok []) →
      searchVectorDatabase sim embed rpc db query k t =
        manualSimilaritySearchRun sim (embed query) db k t) ∧
    (db = .error () → manualSimilaritySearchRun sim (embed query) db k t = []) ∧
    (db = .ok [] → manualSimilaritySearchRun sim (embed query) db k t = []) ∧
    (∀ corpus, db = .ok corpus →
      (scannedRecords corpus k).filterMap (processRecord sim (embed query) t) = [] →
      manualSimilaritySearchRun sim (embed query) db k t = []) := by
  refine ⟨?_, ?_, ?_, ?_⟩
  · rintro (rfl | rfl) <;> simp [searchVectorDatabase]
  · rintro rfl; rfl
  · rintro rfl
    show manualSearchData sim (embed query) (scannedRecords [] k) k t = []
    have hs : scannedRecords ([] : List StoredRecord) k = [] := by
      simp [scannedRecords]
    rw [hs]
    rfl
  · intro corpus hdb hnil
    subst hdb
    show manualSearchData sim (embed query) (scannedRecords corpus k) k t = []
    unfold manualSearchData
    split_ifs with hd
    · rfl
    · rw [hnil]
      simp [List.insertionSort]

/-- C1 witness: a concrete run where the RPC returns no rows and the table
is empty; the facade equals the fallback run on the same embedding. -/
theorem c1_witness :
    searchVectorDatabase simHalf embedOne (.ok []) (.ok []) "q" 5 0 =
      manualSimilaritySearchRun simHalf (embedOne "q") (.ok []) 5 0 :=
  (c1_fallback_on_error_or_empty simHalf embedOne (.ok []) (.ok []) "q" 5 0).1
    (Or.inr rfl)

/-- C2 counterexample: a stored zero-vector embedding parses and has zero
norm, the threshold is 0 (so a candidate assigned similarity 0 would have
to be returned), yet the fallback returns nothing: the zero-norm candidate
is skipped outright, not assigned similarity 0. -/
theorem c2_counterexample :
    parseEmbedding [1, 0] recZero.embedding = some [0, 0] ∧
    dotQ [0, 0] [0, 0] = 0 ∧ ((0 : ℚ) ≤ 0) ∧
    manualSimilaritySearchRun simZero [1, 0] (.ok [recZero]) 5 0 = [] := by
  refine ⟨rfl, by with_unfolding_all rfl, le_refl 0, by with_unfolding_all rfl⟩

/-- C2 (amended): in the fallback search every returned result comes from
a scanned candidate whose embedding parsed and whose vectors both have
positive norm, and carries exactly the kernel's cosine value for that
candidate; a candidate with a zero-norm stored vector is never returned
(regardless of threshold), and a zero-norm query vector yields no results
at all. -/
theorem c2_zero_norm_skipped (sim : List ℚ → List ℚ → ℚ) (q : List ℚ)
    (corpus : List StoredRecord) (k : ℕ) (t : ℚ) :
    (dotQ q q = 0 → manualSimilaritySearchRun sim q (.ok corpus) k t = []) ∧
    (∀ res ∈ manualSimilaritySearchRun sim q (.ok corpus) k t,
      ∃ rec, rec ∈ scannedRecords corpus k ∧ ∃ e,
        parseEmbedding q rec.embedding = some e ∧
        0 < dotQ q q ∧ 0 < dotQ e e ∧ t ≤ sim q e ∧
        res = formatResult rec (sim q e)) := by
  constructor
  · intro hq0
    show manualSearchData sim q (scannedRecords corpus k) k t = []
    unfold manualSearchData
    have hnil : (scannedRecords corpus k).filterMap (processRecord sim q t) = [] := by
      rw [List.filterMap_eq_nil_iff]
      intro rec _
      apply Option.eq_none_iff_forall_not_mem.mpr
      intro res hres
      obtain ⟨hsc, _⟩ := processRecord_eq_some hres
      obtain ⟨e, _, hqpos, _, _⟩ := scoreRecord_eq_some hsc
      rw [hq0] at hqpos
      exact lt_irrefl 0 hqpos
    split_ifs with hd
    · rfl
    · rw [hnil]
      simp [List.insertionSort]
  · intro res hres
    obtain ⟨rec, hrec, hp⟩ := mem_manualSearchData hres
    obtain ⟨hsc, ht⟩ := processRecord_eq_some hp
    obtain ⟨e, hpe, hqpos, hepos, heq⟩ := scoreRecord_eq_some hsc
    subst heq
    exact ⟨rec, hrec, e, hpe, hqpos, hepos, ht, rfl⟩

/-- C2 witness: the amended theorem applied to a concrete zero-norm query
vector — the fallback returns nothing. -/
theorem c2_witness :
    manualSimilaritySearchRun simHalf [0] (.ok [rec1]) 5 0 = [] :=
  (c2_zero_norm_skipped simHalf [0] [rec1] 5 0).1 (by with_unfolding_all rfl)

/-- C3 counterexample: for the empty (hence whitespace-only) query text,
search_vector_database performs an embedding call (it appears in the call
trace) and the search proceeds and returns an ordinary empty result list;
no ValidationError is raised and no rejection happens before embedding,
contrary to the claim. -/
theorem c3_counterexample :
    (SearchStep.embedCall "") ∈ searchTrace (.ok []) "" ∧
    searchVectorDatabase simZero embedOne (.ok []) (.ok []) "" 10 0 = [] := by
  refine ⟨by decide, by with_unfolding_all rfl⟩

/-- C3 (amended): search_vector_database performs no query-text
validation: for every query, including empty or whitespace-only text, the
very first external call is the embedding of that query, and on an erroring
or empty RPC the search still proceeds to the fallback exactly as for any
other query; no ValidationError exists in the code. -/
theorem c3_no_validation (sim : List ℚ → List ℚ → ℚ)
    (embed : String → List ℚ) (rpc : Except Unit (List RpcItem))
    (db : Except Unit (List StoredRecord)) (k : ℕ) (t : ℚ) (query : String)
    (_hq : query.data.all pyWs = true) :
    (searchTrace rpc query).head? = some (.embedCall query) ∧
    ((rpc = .error () ∨ rpc = .ok []) →
      searchVectorDatabase sim embed rpc db query k t =
        manualSimilaritySearchRun sim (embed query) db k t) := by
  constructor
  · rfl
  · rintro (rfl | rfl) <;> simp [searchVectorDatabase]

/-- C3 witness: the amended theorem applied to the empty query with an
empty RPC result — the search still runs the ordinary pipeline. -/
theorem c3_witness :
    searchVectorDatabase simZero embedOne (.ok []) (.ok []) "" 10 0 =
      manualSimilaritySearchRun simZero (embedOne "") (.ok []) 10 0 :=
  (c3_no_validation simZero embedOne (.ok []) (.ok []) 10 0 "" (by decide)).2
    (Or.inr rfl)

/-- C5 counterexample: with a corpus holding one parseable record and one
record whose embedding is unparsable, the fallback's entire observable
output is identical to the output on the corpus without the unparsable
record — the junk record is skipped and results are still returned, but no
skipped-record count (>= 1) is computed or observable anywhere in the
call's behaviour. -/
theorem c5_counterexample :
    parseEmbedding [1] recJunk.embedding = none ∧
    manualSimilaritySearchRun simHalf [1] (.ok [rec1, recJunk]) 5 0 =
      manualSimilaritySearchRun simHalf [1] (.ok [rec1]) 5 0 ∧
    manualSimilaritySearchRun simHalf [1] (.ok [rec1, recJunk]) 5 0 ≠ [] := by
  refine ⟨rfl, by with_unfolding_all rfl, by with_unfolding_all decide⟩

/-- C5 (amended): every scanned record whose stored embedding cannot be
parsed into a numeric vector of the query's dimension is skipped without
failing the call, and the call returns exactly the results computed from
the remaining parseable records: the output equals the output on the
scanned window with unparsable records removed (hence no skipped-record
count is observable in it). -/
theorem c5_skip_unparsable (sim : List ℚ → List ℚ → ℚ) (q : List ℚ)
    (data : List StoredRecord) (k : ℕ) (t : ℚ) :
    manualSearchData sim q data k t =
      manualSearchData sim q
        (data.filter (fun r => (parseEmbedding q r.embedding).isSome)) k t := by
  have hfg : ∀ r : StoredRecord,
      ((parseEmbedding q r.embedding).isSome = false) →
      processRecord sim q t r = none := by
    intro r hr
    apply processRecord_parse_none
    cases hp : parseEmbedding q r.embedding with
    | none => rfl
    | some e => rw [hp] at hr; cases hr
  have key := filterMap_filter_of_none (processRecord sim q t)
    (fun r => (parseEmbedding q r.embedding).isSome) hfg data
  unfold manualSearchData
  by_cases h1 : data = []
  · subst h1; simp
  · by_cases h2 : data.filter (fun r => (parseEmbedding q r.embedding).isSome) = []
    · rw [if_neg h1, if_pos h2, key, h2]
      simp [List.insertionSort]
    · rw [if_neg h1, if_neg h2, key]

/-- C8: the fallback scan reads at most min(1000, limit * 20) records,
hence never more than 1000, and the search result depends only on that
bounded window of the table. -/
theorem c8_scan_bounded (sim : List ℚ → List ℚ → ℚ) (q : List ℚ)
    (corpus : List StoredRecord) (k : ℕ) (t : ℚ) :
    (scannedRecords corpus k).length ≤ min 1000 (k * 20) ∧
    (scannedRecords corpus k).length ≤ 1000 ∧
    manualSimilaritySearchRun sim q (.ok corpus) k t =
      manualSimilaritySearchRun sim q (.ok (corpus.take (min 1000 (k * 20)))) k t := by
  refine ⟨?_, ?_, ?_⟩
  · rw [scannedRecords, scanCap, List.length_take]
    exact min_le_left _ _
  · rw [scannedRecords, scanCap, List.length_take]
    exact le_trans (min_le_left _ _) (min_le_left _ _)
  · show manualSearchData sim q (scannedRecords corpus k) k t =
      manualSearchData sim q (scannedRecords (corpus.take (min 1000 (k * 20))) k) k t
    unfold scannedRecords scanCap
    rw [List.take_take, min_self]

/-- C9: under the sentence-transformer contract (one vector per input, in
input order), create_embeddings returns exactly one vector per input text
in the same order, each of dimension 384, and on an internal encode
failure it substitutes a 384-dimensional zero vector per input instead of
propagating an exception; create_query_embedding likewise always returns a
384-dimensional vector. -/
theorem c9_embedding_shape
    (encode : List String → Except Unit (List (List ℚ)))
    (encode1 : String → Except Unit (List ℚ)) (embed1 : String → List ℚ)
    (henc : ∀ ts, encode ts = .error () ∨ encode ts = .ok (ts.map embed1))
    (hdim : ∀ s, (embed1 s).length = 384)
    (henc1 : ∀ s, encode1 s = .error () ∨ encode1 s = .ok (embed1 s))
    (texts : List String) (query : String) :
    (createEmbeddings encode texts).length = texts.length ∧
    (∀ v ∈ createEmbeddings encode texts, v.length = 384) ∧
    (createEmbeddings encode texts = texts.map embed1 ∨
      createEmbeddings encode texts =
        List.replicate texts.length (List.replicate 384 0)) ∧
    (createQueryEmbedding encode1 query).length = 384 := by
  have hc : createEmbeddings encode texts = texts.map embed1 ∨
      createEmbeddings encode texts =
        List.replicate texts.length (List.replicate 384 0) := by
    rcases henc texts with h | h
    · right
      unfold createEmbeddings
      rw [h]
    · left
      unfold createEmbeddings
      rw [h]
  refine ⟨?_, ?_, hc, ?_⟩
  · rcases hc with h | h <;> rw [h]
    · exact List.length_map _ _
    · exact List.length_replicate _ _
  · intro v hv
    rcases hc with h | h <;> rw [h] at hv
    · obtain ⟨s, _, rfl⟩ := List.mem_map.mp hv
      exact hdim s
    · rw [List.eq_of_mem_replicate hv]
      exact List.length_replicate _ _
  · rcases henc1 query with h | h <;> unfold createQueryEmbedding <;> rw [h]
    · exact List.length_replicate _ _
    · exact hdim query

/-- C9 witness: the shape theorem applied to a concrete always-succeeding
pointwise encoder and two input texts. -/
theorem c9_witness :
    (createEmbeddings encodeZeros ["a", "b"]).length =
      (["a", "b"] : List String).length :=
  (c9_embedding_shape encodeZeros encode1Zeros embedZeros
    (fun _ => Or.inr rfl) (fun _ => List.length_replicate _ _)
    (fun _ => Or.inr rfl) ["a", "b"] "q").1

theorem orderedInsert_append_low (x : SearchResult) :
    ∀ (l1 l2 : List SearchResult), (∀ b ∈ l2, simOrd x b) →
      List.orderedInsert simOrd x (l1 ++ l2) =
        List.orderedInsert simOrd x l1 ++ l2
  | [], [], _ => rfl
  | [], c :: cs, h => by
    simp only [List.nil_append, List.orderedInsert]
    rw [if_pos (h c (List.mem_cons_self c cs))]
    rfl
  | b :: bs, l2, h => by
    simp only [List.cons_append, List.orderedInsert, List.append_eq]
    by_cases hb : simOrd x b
    · rw [if_pos hb, if_pos hb]
      simp [List.cons_append]
    · rw [if_neg hb, if_neg hb, orderedInsert_append_low x bs l2 h]
      simp [List.cons_append]

theorem orderedInsert_append_high (x : SearchResult) :
    ∀ (l1 l2 : List SearchResult), (∀ a ∈ l1, ¬ simOrd x a) →
      List.orderedInsert simOrd x (l1 ++ l2) =
        l1 ++ List.orderedInsert simOrd x l2
  | [], _, _ => rfl
  | a :: as, l2, h => by
    simp only [List.cons_append, List.orderedInsert, List.append_eq]
    rw [if_neg (h a (List.mem_cons_self a as)),
      orderedInsert_append_high x as l2
        (fun b hb => h b (List.mem_cons_of_mem a hb))]

theorem insertionSort_split (p : SearchResult → Bool) :
    ∀ l : List SearchResult,
      (∀ x ∈ l, ∀ y ∈ l, p x = true → p y = false →
        y.similarity < x.similarity) →
      List.insertionSort simOrd l =
        List.insertionSort simOrd (l.filter p) ++
          List.insertionSort simOrd (l.filter (fun a => ! p a))
  | [], _ => rfl
  | x :: xs, h => by
    have hxs : ∀ a ∈ xs, ∀ b ∈ xs, p a = true → p b = false →
        b.similarity < a.similarity :=
      fun a ha b hb => h a (List.mem_cons_of_mem x ha) b (List.mem_cons_of_mem x hb)
    have ih := insertionSort_split p xs hxs
    cases hx : p x with
    | true =>
      rw [List.filter_cons_of_pos (by rw [hx]),
        List.filter_cons_of_neg (by simp [hx])]
      show List.orderedInsert simOrd x (List.insertionSort simOrd xs) = _
      rw [ih, orderedInsert_append_low x _ _ ?low]
      · rfl
      case low =>
        intro b hb
        have hbx : b ∈ xs.filter (fun a => ! p a) :=
          (List.perm_insertionSort simOrd _).subset hb
        have hbp : p b = false := by
          have := (List.mem_filter.mp hbx).2
          simpa using this
        exact le_of_lt (h x (List.mem_cons_self x xs) b
          (List.mem_cons_of_mem x (List.mem_filter.mp hbx).1) hx hbp)
    | false =>
      rw [List.filter_cons_of_neg (by simp [hx]),
        List.filter_cons_of_pos (by simp [hx])]
      show List.orderedInsert simOrd x (List.insertionSort simOrd xs) = _
      rw [ih, orderedInsert_append_high x _ _ ?high]
      · rfl
      case high =>
        intro a ha
        have hax : a ∈ xs.filter p :=
          (List.perm_insertionSort simOrd _).subset ha
        have hap : p a = true := (List.mem_filter.mp hax).2
        exact not_le_of_lt (h a (List.mem_cons_of_mem x (List.mem_filter.mp hax).1)
          x (List.mem_cons_self x xs) hap hx)

theorem orderedInsert_filter_level (c : ℚ) (x : SearchResult) :
    ∀ l : List SearchResult,
      (List.orderedInsert simOrd x l).filter (fun r => decide (r.similarity = c)) =
        ((x :: l).filter (fun r => decide (r.similarity = c)))
  | [] => rfl
  | y :: ys => by
    simp only [List.orderedInsert]
    by_cases hxy : simOrd x y
    · rw [if_pos hxy]
    · rw [if_neg hxy]
      have hlt : x.similarity < y.similarity := lt_of_not_le hxy
      by_cases hx : x.similarity = c
      · have hy : ¬ y.similarity = c := by
          rw [← hx]
          exact ne_of_gt hlt
        simp [List.filter_cons, hx, hy, orderedInsert_filter_level c x ys]
      · simp [List.filter_cons, hx, orderedInsert_filter_level c x ys]

theorem insertionSort_filter_level (c : ℚ) :
    ∀ l : List SearchResult,
      (List.insertionSort simOrd l).filter (fun r => decide (r.similarity = c)) =
        l.filter (fun r => decide (r.similarity = c))
  | [] => rfl
  | x :: xs => by
    show (List.orderedInsert simOrd x (List.insertionSort simOrd xs)).filter _ = _
    rw [orderedInsert_filter_level c x (List.insertionSort simOrd xs)]
    simp [List.filter_cons, insertionSort_filter_level c xs]

theorem filterMap_processRecord (sim : List ℚ → List ℚ → ℚ) (q : List ℚ)
    (t : ℚ) :
    ∀ data : List StoredRecord,
      data.filterMap (processRecord sim q t) =
        (data.filterMap (scoreRecord sim q)).filter
          (fun res => decide (t ≤ res.similarity))
  | [] => rfl
  | x :: xs => by
    rw [List.filterMap_cons, List.filterMap_cons]
    cases hs : scoreRecord sim q x with
    | none =>
      have hp : processRecord sim q t x = none := by
        unfold processRecord
        rw [hs]
      rw [hp, filterMap_processRecord sim q t xs]
    | some res =>
      have hp : processRecord sim q t x =
          if t ≤ res.similarity then some res else none := by
        unfold processRecord
        rw [hs]
      rw [hp, List.filter_cons]
      by_cases ht : t ≤ res.similarity
      · simp [ht, filterMap_processRecord sim q t xs]
      · simp [ht, filterMap_processRecord sim q t xs]

theorem mem_filterMap_mono {α β : Type} {f g : α → Option β}
    (h : ∀ x y, f x = some y → g x = some y) {l : List α} {r : β}
    (hr : r ∈ l.filterMap f) : r ∈ l.filterMap g := by
  obtain ⟨x, hx, hf⟩ := List.mem_filterMap.mp hr
  exact List.mem_filterMap.mpr ⟨x, hx, h x r hf⟩

theorem length_filterMap_mono {α β : Type} (f g : α → Option β)
    (h : ∀ x y, f x = some y → g x = some y) :
    ∀ l : List α, (l.filterMap f).length ≤ (l.filterMap g).length
  | [] => le_refl 0
  | x :: xs => by
    rw [List.filterMap_cons, List.filterMap_cons]
    cases hf : f x with
    | none =>
      cases hg : g x with
      | none => exact length_filterMap_mono f g h xs
      | some y =>
        rw [List.length_cons]
        exact le_trans (length_filterMap_mono f g h xs) (Nat.le_succ _)
    | some y =>
      rw [h x y hf, List.length_cons, List.length_cons]
      exact Nat.succ_le_succ (length_filterMap_mono f g h xs)

theorem manualSearchData_mono (sim : List ℚ → List ℚ → ℚ) (q : List ℚ)
    (data : List StoredRecord) (k : ℕ) {t1 t2 : ℚ} (h12 : t1 ≤ t2) :
    (∀ r ∈ manualSearchData sim q data k t2,
      r ∈ manualSearchData sim q data k t1) ∧
    (manualSearchData sim q data k t2).length ≤
      (manualSearchData sim q data k t1).length := by
  unfold manualSearchData
  by_cases hd : data = []
  · simp [hd]
  · rw [if_neg hd, if_neg hd]
    set scored := data.filterMap (scoreRecord sim q) with hscored
    have h2 : data.filterMap (processRecord sim q t2) =
        scored.filter (fun res => decide (t2 ≤ res.similarity)) :=
      filterMap_processRecord sim q t2 data
    have h1 : data.filterMap (processRecord sim q t1) =
        scored.filter (fun res => decide (t1 ≤ res.similarity)) :=
      filterMap_processRecord sim q t1 data
    have hsub : (scored.filter (fun res => decide (t1 ≤ res.similarity))).filter
        (fun res => decide (t2 ≤ res.similarity)) =
        scored.filter (fun res => decide (t2 ≤ res.similarity)) := by
      rw [List.filter_filter]
      apply List.filter_congr
      intro x _
      by_cases hx : t2 ≤ x.similarity
      · simp [hx, le_trans h12 hx]
      · simp [hx]
    have hsep : ∀ x ∈ scored.filter (fun res => decide (t1 ≤ res.similarity)),
        ∀ y ∈ scored.filter (fun res => decide (t1 ≤ res.similarity)),
        (fun res => decide (t2 ≤ res.similarity)) x = true →
        (fun res => decide (t2 ≤ res.similarity)) y = false →
        y.similarity < x.similarity := by
      intro x _ y _ hx hy
      have hx2 : t2 ≤ x.similarity := of_decide_eq_true hx
      have hy2 : ¬ t2 ≤ y.similarity := of_decide_eq_false hy
      exact lt_of_lt_of_le (lt_of_not_le hy2) hx2
    have hsplit := insertionSort_split
      (fun res => decide (t2 ≤ res.similarity))
      (scored.filter (fun res => decide (t1 ≤ res.similarity))) hsep
    rw [hsub] at hsplit
    constructor
    · intro r hr
      rw [h2] at hr
      rw [h1, hsplit, List.take_append_eq_append_take]
      exact List.mem_append_left _ hr
    · rw [h1, h2, List.length_take, List.length_take, hsplit, List.length_append]
      exact min_le_min (le_refl k) (Nat.le_add_right _ _)

theorem formatRpcItem_mono {t1 t2 : ℚ} (h12 : t1 ≤ t2) (it : RpcItem)
    (r : SearchResult) (h : formatRpcItem t2 it = some r) :
    formatRpcItem t1 it = some r := by
  unfold formatRpcItem at h ⊢
  by_cases ht : t2 ≤ it.similarity
  · rw [if_pos ht] at h
    rw [if_pos (le_trans h12 ht)]
    exact h
  · rw [if_neg ht] at h
    cases h

/-- C6: for every query vector, limit k and threshold, the fallback search
returns at most k results, sorted in non-increasing order of similarity,
each clearing the threshold; and for every similarity level the results at
that level form a prefix of the threshold-filtered scan-order candidate
list, so ties keep insertion (scan) order, earliest first. -/
theorem c6_ranked_results (sim : List ℚ → List ℚ → ℚ) (q : List ℚ)
    (db : Except Unit (List StoredRecord)) (k : ℕ) (t : ℚ) :
    (manualSimilaritySearchRun sim q db k t).length ≤ k ∧
    (manualSimilaritySearchRun sim q db k t).Pairwise
      (fun a b => b.similarity ≤ a.similarity) ∧
    (∀ r ∈ manualSimilaritySearchRun sim q db k t, t ≤ r.similarity) ∧
    (∀ corpus, db = Except.ok corpus → ∀ c : ℚ,
      ((manualSimilaritySearchRun sim q db k t).filter
        (fun r => decide (r.similarity = c))) <+:
      (((scannedRecords corpus k).filterMap (processRecord sim q t)).filter
        (fun r => decide (r.similarity = c)))) := by
  refine ⟨?_, ?_, ?_, ?_⟩
  · cases db with
    | error e => exact Nat.zero_le k
    | ok corpus =>
      show (manualSearchData sim q (scannedRecords corpus k) k t).length ≤ k
      unfold manualSearchData
      split_ifs
      · exact Nat.zero_le k
      · rw [List.length_take]
        exact min_le_left _ _
  · cases db with
    | error e => exact List.Pairwise.nil
    | ok corpus =>
      show (manualSearchData sim q (scannedRecords corpus k) k t).Pairwise _
      unfold manualSearchData
      split_ifs
      · exact List.Pairwise.nil
      · exact List.Pairwise.sublist (List.take_sublist k _)
          (List.sorted_insertionSort simOrd _)
  · intro r hr
    cases db with
    | error e => exact absurd hr (List.not_mem_nil r)
    | ok corpus =>
      obtain ⟨rec, _, hp⟩ := mem_manualSearchData hr
      exact (processRecord_eq_some hp).2
  · intro corpus hdb c
    subst hdb
    show (manualSearchData sim q (scannedRecords corpus k) k t).filter _ <+: _
    unfold manualSearchData
    split_ifs with hd
    · exact ⟨_, List.nil_append _⟩
    · have hstab := insertionSort_filter_level c
        ((scannedRecords corpus k).filterMap (processRecord sim q t))
      rw [← hstab]
      refine ⟨((List.insertionSort simOrd
        ((scannedRecords corpus k).filterMap (processRecord sim q t))).drop k).filter
          (fun r => decide (r.similarity = c)), ?_⟩
      rw [← List.filter_append, List.take_append_drop]

/-- C6 witness: the threshold conjunct applied to the concrete result of a
one-record corpus at threshold 0. -/
theorem c6_witness :
    (0 : ℚ) ≤ (formatResult rec1 (simHalf [1] [2])).similarity :=
  (c6_ranked_results simHalf [1] (.ok [rec1]) 5 0).2.2.1
    (formatResult rec1 (simHalf [1] [2])) (by with_unfolding_all decide)

/-- C7: for a fixed query (hence a fixed query vector) and a fixed stored
corpus, raising the similarity threshold from t1 to t2 >= t1 only shrinks
the result set: every result returned at t2 is returned at t1, and the
number of results at t2 is at most that at t1 — on the whole facade
(covering the primary-filter path) and on the fallback path for any query
vector. -/
theorem c7_threshold_monotone (sim : List ℚ → List ℚ → ℚ)
    (embed : String → List ℚ) (rpc : Except Unit (List RpcItem))
    (db : Except Unit (List StoredRecord)) (query : String) (k : ℕ)
    {t1 t2 : ℚ} (h12 : t1 ≤ t2) :
    (∀ r ∈ searchVectorDatabase sim embed rpc db query k t2,
      r ∈ searchVectorDatabase sim embed rpc db query k t1) ∧
    (searchVectorDatabase sim embed rpc db query k t2).length ≤
      (searchVectorDatabase sim embed rpc db query k t1).length ∧
    (∀ v : List ℚ, ∀ r ∈ manualSimilaritySearchRun sim v db k t2,
      r ∈ manualSimilaritySearchRun sim v db k t1) ∧
    (∀ v : List ℚ, (manualSimilaritySearchRun sim v db k t2).length ≤
      (manualSimilaritySearchRun sim v db k t1).length) := by
  have hrun : ∀ v : List ℚ,
      (∀ r ∈ manualSimilaritySearchRun sim v db k t2,
        r ∈ manualSimilaritySearchRun sim v db k t1) ∧
      (manualSimilaritySearchRun sim v db k t2).length ≤
        (manualSimilaritySearchRun sim v db k t1).length := by
    intro v
    cases db with
    | error e => exact ⟨fun r hr => hr, le_refl _⟩
    | ok corpus => exact manualSearchData_mono sim v (scannedRecords corpus k) k h12
  have hmono : ∀ it r, formatRpcItem t2 it = some r → formatRpcItem t1 it = some r :=
    fun it r h => formatRpcItem_mono h12 it r h
  refine ⟨?_, ?_, fun v => (hrun v).1, fun v => (hrun v).2⟩
  · intro r hr
    cases rpc with
    | error e => exact (hrun (embed query)).1 r hr
    | ok data =>
      by_cases hd : data = []
      · unfold searchVectorDatabase at hr ⊢
        dsimp only at hr ⊢
        rw [if_pos hd] at hr ⊢
        exact (hrun (embed query)).1 r hr
      · unfold searchVectorDatabase at hr ⊢
        dsimp only at hr ⊢
        rw [if_neg hd] at hr ⊢
        exact mem_filterMap_mono hmono hr
  · cases rpc with
    | error e => exact (hrun (embed query)).2
    | ok data =>
      by_cases hd : data = []
      · unfold searchVectorDatabase
        dsimp only
        rw [if_pos hd, if_pos hd]
        exact (hrun (embed query)).2
      · unfold searchVectorDatabase
        dsimp only
        rw [if_neg hd, if_neg hd]
        exact length_filterMap_mono _ _ hmono data

/-- C7 witness: at a fixed query and corpus, the result count at threshold
1 is at most the count at threshold 0. -/
theorem c7_witness :
    (searchVectorDatabase simHalf embedOne (.ok []) (.ok [rec1]) "q" 5 1).length ≤
      (searchVectorDatabase simHalf embedOne (.ok []) (.ok [rec1]) "q" 5 0).length :=
  (c7_threshold_monotone simHalf embedOne (.ok []) (.ok [rec1]) "q" 5
    (zero_le_one : (0 : ℚ) ≤ 1)).2.1

theorem hasKey_iff {db : DocTable} {k : String × ℕ} :
    hasKey db k = true ↔ ∃ d ∈ db, docKey d = k := by
  simp [hasKey, List.any_eq_true]

theorem hasKey_append (db1 db2 : DocTable) (k : String × ℕ) :
    hasKey (db1 ++ db2) k = (hasKey db1 k || hasKey db2 k) := by
  simp [hasKey, List.any_append]

theorem insertBatch_fresh (db : DocTable) (batch : List Doc)
    (hnodup : (batch.map docKey).Nodup)
    (hfresh : ∀ d ∈ batch, hasKey db (docKey d) = false) :
    insertBatch db batch = .ok (db ++ batch) := by
  unfold insertBatch
  rw [if_neg]
  rintro (ha | hb)
  · obtain ⟨d, hd, hk⟩ := List.any_eq_true.mp ha
    rw [hfresh d hd] at hk
    cases hk
  · exact hb hnodup

theorem insertBatch_conflict (db : DocTable) (batch : List Doc) (d : Doc)
    (hd : d ∈ batch) (hk : hasKey db (docKey d) = true) :
    insertBatch db batch = .error () := by
  unfold insertBatch
  rw [if_pos]
  exact Or.inl (List.any_eq_true.mpr ⟨d, hd, hk⟩)

theorem storeBatch_fresh (db : DocTable) (batch : List Doc)
    (hnodup : (batch.map docKey).Nodup)
    (hfresh : ∀ d ∈ batch, hasKey db (docKey d) = false) :
    storeBatch db batch = (db ++ batch, batch.length) := by
  unfold storeBatch
  rw [insertBatch_fresh db batch hnodup hfresh]

theorem foldl_insert_dup (db : DocTable) :
    ∀ (batch : List Doc), (∀ d ∈ batch, hasKey db (docKey d) = true) →
      ∀ n : ℕ,
        batch.foldl
          (fun st d =>
            match insertBatch st.1 [d] with
            | .ok db2 => (db2, st.2 + 1)
            | .error _ => st)
          (db, n) = (db, n)
  | [], _, n => rfl
  | d :: ds, h, n => by
    rw [List.foldl_cons]
    have hc : insertBatch db [d] = .error () :=
      insertBatch_conflict db [d] d (List.mem_cons_self d [])
        (h d (List.mem_cons_self d ds))
    dsimp only
    rw [hc]
    exact foldl_insert_dup db ds
      (fun d' hd' => h d' (List.mem_cons_of_mem d hd')) n

theorem storeBatch_dup (db : DocTable) (batch : List Doc)
    (hdup : ∀ d ∈ batch, hasKey db (docKey d) = true) (hne : batch ≠ []) :
    storeBatch db batch = (db, 0) := by
  unfold storeBatch
  obtain ⟨d0, hd0⟩ : ∃ d, d ∈ batch := by
    cases batch with
    | nil => exact absurd rfl hne
    | cons b bs => exact ⟨b, List.mem_cons_self b bs⟩
  rw [insertBatch_conflict db batch d0 hd0 (hdup d0 hd0)]
  exact foldl_insert_dup db batch hdup 0

theorem storeLoop_shift :
    ∀ (bs : List (List Doc)) (db : DocTable) (c : ℕ),
      bs.foldl
        (fun st batch =>
          ((storeBatch st.1 batch).1, st.2 + (storeBatch st.1 batch).2))
        (db, c) =
      ((storeLoop db bs).1, c + (storeLoop db bs).2)
  | [], db, c => by simp [storeLoop]
  | b :: bs, db, c => by
    have h2 : storeLoop db (b :: bs) =
        ((storeLoop (storeBatch db b).1 bs).1,
          (storeBatch db b).2 + (storeLoop (storeBatch db b).1 bs).2) := by
      unfold storeLoop
      rw [List.foldl_cons]
      dsimp only
      rw [Nat.zero_add]
      exact storeLoop_shift bs (storeBatch db b).1 (storeBatch db b).2
    rw [List.foldl_cons]
    dsimp only
    rw [storeLoop_shift bs (storeBatch db b).1 (c + (storeBatch db b).2), h2]
    dsimp only
    rw [Nat.add_assoc]

theorem storeLoop_cons (db : DocTable) (b : List Doc) (bs : List (List Doc)) :
    storeLoop db (b :: bs) =
      ((storeLoop (storeBatch db b).1 bs).1,
        (storeBatch db b).2 + (storeLoop (storeBatch db b).1 bs).2) := by
  unfold storeLoop
  rw [List.foldl_cons]
  dsimp only
  rw [Nat.zero_add]
  exact storeLoop_shift bs (storeBatch db b).1 (storeBatch db b).2

theorem storeLoop_chunks_fresh :
    ∀ (docs : List Doc) (db : DocTable),
      (docs.map docKey).Nodup →
      (∀ d ∈ docs, hasKey db (docKey d) = false) →
      storeLoop db (chunks5 docs) = (db ++ docs, docs.length) := by
  intro docs
  induction docs using chunks5.induct with
  | case1 =>
    intro db _ _
    simp [chunks5, storeLoop]
  | case2 d ds ih =>
    intro db hnodup hfresh
    have hdrop : ds.drop (batchSize - 1) = (d :: ds).drop batchSize := rfl
    have hsplit : (d :: ds).take batchSize ++ ds.drop (batchSize - 1) = d :: ds := by
      rw [hdrop, List.take_append_drop]
    have hmapsplit : (d :: ds).map docKey =
        ((d :: ds).take batchSize).map docKey ++
          (ds.drop (batchSize - 1)).map docKey := by
      conv_lhs => rw [← hsplit]
      rw [List.map_append]
    have hkeys := hnodup
    rw [hmapsplit] at hkeys
    have hnodupB := (List.nodup_append.mp hkeys).1
    have hnodupR := (List.nodup_append.mp hkeys).2.1
    have hdisj := (List.nodup_append.mp hkeys).2.2
    have hsubB : ∀ x ∈ (d :: ds).take batchSize, x ∈ d :: ds :=
      fun x hx => (List.take_sublist _ _).subset hx
    have hsubR : ∀ x ∈ ds.drop (batchSize - 1), x ∈ d :: ds := by
      intro x hx
      rw [hdrop] at hx
      exact (List.drop_sublist _ _).subset hx
    have hfreshB : ∀ x ∈ (d :: ds).take batchSize,
        hasKey db (docKey x) = false :=
      fun x hx => hfresh x (hsubB x hx)
    have hchunks : chunks5 (d :: ds) =
        ((d :: ds).take batchSize) :: chunks5 (ds.drop (batchSize - 1)) := by
      rw [chunks5]
    rw [hchunks, storeLoop_cons,
      storeBatch_fresh db _ hnodupB hfreshB]
    dsimp only
    have hfreshR : ∀ x ∈ ds.drop (batchSize - 1),
        hasKey (db ++ (d :: ds).take batchSize) (docKey x) = false := by
      intro x hx
      rw [hasKey_append]
      have h1 : hasKey db (docKey x) = false := hfresh x (hsubR x hx)
      have h2 : hasKey ((d :: ds).take batchSize) (docKey x) = false := by
        cases hb : hasKey ((d :: ds).take batchSize) (docKey x) with
        | false => rfl
        | true =>
          obtain ⟨b, hbB, hbk⟩ := hasKey_iff.mp hb
          have hmem1 : docKey x ∈ ((d :: ds).take batchSize).map docKey :=
            hbk ▸ List.mem_map_of_mem docKey hbB
          have hmem2 : docKey x ∈ (ds.drop (batchSize - 1)).map docKey :=
            List.mem_map_of_mem docKey hx
          exact absurd hmem2 (hdisj hmem1)
      rw [h1, h2]
      rfl
    rw [ih (db ++ (d :: ds).take batchSize) hnodupR hfreshR]
    have hlen : ((d :: ds).take batchSize).length +
        (ds.drop (batchSize - 1)).length = (d :: ds).length := by
      rw [← List.length_append, hsplit]
    rw [List.append_assoc, hsplit, hlen]

theorem storeLoop_chunks_dup :
    ∀ (docs : List Doc) (db : DocTable),
      (∀ d ∈ docs, hasKey db (docKey d) = true) →
      storeLoop db (chunks5 docs) = (db, 0) := by
  intro docs
  induction docs using chunks5.induct with
  | case1 =>
    intro db _
    simp [chunks5, storeLoop]
  | case2 d ds ih =>
    intro db hdup
    have hchunks : chunks5 (d :: ds) =
        ((d :: ds).take batchSize) :: chunks5 (ds.drop (batchSize - 1)) := by
      rw [chunks5]
    have hBne : (d :: ds).take batchSize ≠ [] := by
      simp [batchSize]
    have hdupB : ∀ x ∈ (d :: ds).take batchSize,
        hasKey db (docKey x) = true :=
      fun x hx => hdup x ((List.take_sublist _ _).subset hx)
    have hsubR : ∀ x ∈ ds.drop (batchSize - 1), x ∈ d :: ds := by
      intro x hx
      have hdrop : ds.drop (batchSize - 1) = (d :: ds).drop batchSize := rfl
      rw [hdrop] at hx
      exact (List.drop_sublist _ _).subset hx
    rw [hchunks, storeLoop_cons, storeBatch_dup db _ hdupB hBne]
    dsimp only
    rw [ih db (fun x hx => hdup x (hsubR x hx))]
    rfl

theorem countKey_append (db1 db2 : DocTable) (k : String × ℕ) :
    countKey (db1 ++ db2) k = countKey db1 k + countKey db2 k := by
  simp [countKey, List.filter_append]

theorem countKey_eq_zero {db : DocTable} {k : String × ℕ}
    (h : hasKey db k = false) : countKey db k = 0 := by
  unfold countKey
  have hnil : db.filter (fun d => docKey d = k) = [] := by
    rw [List.filter_eq_nil_iff]
    intro d hd hk
    have : hasKey db k = true :=
      List.any_eq_true.mpr ⟨d, hd, hk⟩
    rw [h] at this
    cases this
  rw [hnil]
  rfl

theorem length_filter_eq_one {α : Type} [DecidableEq α] :
    ∀ (l : List α) (k : α), l.Nodup → k ∈ l →
      (l.filter (fun x => x = k)).length = 1
  | [], _, _, hm => absurd hm (List.not_mem_nil _)
  | x :: xs, k, hn, hm => by
    rw [List.filter_cons]
    by_cases hx : x = k
    · subst hx
      have hk : x ∉ xs := (List.nodup_cons.mp hn).1
      have hnil : xs.filter (fun y => y = x) = [] := by
        rw [List.filter_eq_nil_iff]
        intro a ha hak
        exact hk ((of_decide_eq_true hak) ▸ ha)
      simp [hnil]
    · have hm' : k ∈ xs := by
        rcases List.mem_cons.mp hm with h | h
        · exact absurd h.symm hx
        · exact h
      simp [hx, length_filter_eq_one xs k (List.nodup_cons.mp hn).2 hm']

theorem countKey_eq_one {docs : List Doc} {k : String × ℕ}
    (hn : (docs.map docKey).Nodup) (hm : k ∈ docs.map docKey) :
    countKey docs k = 1 := by
  unfold countKey
  have hh := length_filter_eq_one (docs.map docKey) k hn hm
  rw [List.filter_map, List.length_map] at hh
  exact hh

/-- C4 counterexample: re-ingesting the key ("u", 0) with different
content "B" leaves the stored record with content "A" untouched — the
store inserts and skips conflicts; it never updates an existing record, so
the upsert/update reading of the claim is false. -/
theorem c4_counterexample :
    (storeForms [docA] [docB]).1 = [docA] ∧
    docB.url = docA.url ∧ docB.chunk_number = docA.chunk_number ∧
    docB.content ≠ docA.content := by
  refine ⟨by with_unfolding_all rfl, rfl, rfl, by decide⟩

/-- C4 (amended): for documents with pairwise-distinct (url, chunk_number)
keys fresh for the table, the first store call inserts all of them; an
identical second call changes nothing, does not error (it returns true,
with 0 stored), and each ingested key ends with exactly one stored
record — duplicate-key conflicts on the per-record retry are swallowed and
the existing record is kept, neither updated nor duplicated. -/
theorem c4_idempotent_ingest (db : DocTable) (docs : List Doc)
    (hnodup : (docs.map docKey).Nodup)
    (hfresh : ∀ d ∈ docs, hasKey db (docKey d) = false) :
    storeForms db docs = (db ++ docs, docs.length, true) ∧
    storeForms (db ++ docs) docs = (db ++ docs, 0, true) ∧
    ∀ d ∈ docs, countKey (db ++ docs) (docKey d) = 1 := by
  refine ⟨?_, ?_, ?_⟩
  · unfold storeForms
    rw [storeLoop_chunks_fresh docs db hnodup hfresh]
  · unfold storeForms
    rw [storeLoop_chunks_dup docs (db ++ docs) ?hdup]
    case hdup =>
      intro d hd
      rw [hasKey_append]
      have hk : hasKey docs (docKey d) = true :=
        hasKey_iff.mpr ⟨d, hd, rfl⟩
      rw [hk, Bool.or_true]
  · intro d hd
    rw [countKey_append, countKey_eq_zero (hfresh d hd),
      countKey_eq_one hnodup (List.mem_map_of_mem docKey hd)]

/-- C4 witness: storing one concrete document twice — the second call
leaves the table unchanged and reports success. -/
theorem c4_witness :
    storeForms ([docA] : DocTable) [docA] = ([docA], 0, true) :=
  (c4_idempotent_ingest [] [docA] (by decide) (fun _ _ => rfl)).2.1

theorem head?_dropWhile_not {p : Char → Bool} :
    ∀ (l : List Char) (c : Char), (l.dropWhile p).head? = some c → p c = false
  | [], c, h => by cases h
  | x :: xs, c, h => by
    rw [List.dropWhile_cons] at h
    by_cases hx : p x
    · rw [if_pos hx] at h
      exact head?_dropWhile_not xs c h
    · rw [if_neg hx] at h
      injection h with h2
      rw [← h2]
      cases hb : p x with
      | false => rfl
      | true => exact absurd hb hx

theorem collapseWs_ws_eq_space :
    ∀ (l : List Char), ∀ c ∈ collapseWs l, pyWs c = true → c = ' ' := by
  intro l
  induction l using collapseWs.induct with
  | case1 =>
    intro c hc
    simp [collapseWs] at hc
  | case2 c cs hws ih =>
    intro a ha hwa
    simp only [collapseWs, if_pos hws] at ha
    rcases List.mem_cons.mp ha with h | h
    · exact h
    · exact ih a h hwa
  | case3 c cs hws ih =>
    intro a ha hwa
    simp only [collapseWs, if_neg hws] at ha
    rcases List.mem_cons.mp ha with h | h
    · subst h
      exact absurd hwa hws
    · exact ih a h hwa

theorem collapseWs_subset :
    ∀ (l : List Char), ∀ c ∈ collapseWs l, c = ' ' ∨ c ∈ l := by
  intro l
  induction l using collapseWs.induct with
  | case1 =>
    intro c hc
    simp [collapseWs] at hc
  | case2 c cs hws ih =>
    intro a ha
    simp only [collapseWs, if_pos hws] at ha
    rcases List.mem_cons.mp ha with h | h
    · exact Or.inl h
    · rcases ih a h with h2 | h2
      · exact Or.inl h2
      · exact Or.inr (List.mem_cons_of_mem c
          (((List.dropWhile_suffix pyWs).sublist).subset h2))
  | case3 c cs hws ih =>
    intro a ha
    simp only [collapseWs, if_neg hws] at ha
    rcases List.mem_cons.mp ha with h | h
    · exact Or.inr (h ▸ List.mem_cons_self c cs)
    · rcases ih a h with h2 | h2
      · exact Or.inl h2
      · exact Or.inr (List.mem_cons_of_mem c h2)

theorem collapseWs_head_not_ws (l : List Char)
    (hl : ∀ c, l.head? = some c → pyWs c = false) :
    ∀ c, (collapseWs l).head? = some c → pyWs c = false := by
  intro c hc
  cases l with
  | nil =>
    simp [collapseWs] at hc
  | cons x xs =>
    have hx : pyWs x = false := hl x rfl
    simp only [collapseWs] at hc
    rw [if_neg (by rw [hx]; exact Bool.false_ne_true)] at hc
    injection hc with h2
    rw [← h2]
    exact hx

theorem collapseWs_chain :
    ∀ l : List Char,
      (collapseWs l).Chain' (fun a b => ¬(pyWs a = true ∧ pyWs b = true)) := by
  intro l
  induction l using collapseWs.induct with
  | case1 =>
    simp [collapseWs]
  | case2 c cs hws ih =>
    simp only [collapseWs, if_pos hws]
    cases hrest : collapseWs (cs.dropWhile pyWs) with
    | nil => simp
    | cons y ys =>
      rw [hrest] at ih
      refine List.chain'_cons.mpr ⟨?_, ih⟩
      have hy : pyWs y = false :=
        collapseWs_head_not_ws (cs.dropWhile pyWs)
          (fun c' hc' => head?_dropWhile_not cs c' hc') y (by rw [hrest]; rfl)
      intro hand
      rw [hy] at hand
      exact Bool.false_ne_true hand.2
  | case3 c cs hws ih =>
    simp only [collapseWs, if_neg hws]
    cases hrest : collapseWs cs with
    | nil => simp
    | cons y ys =>
      rw [hrest] at ih
      exact List.chain'_cons.mpr ⟨fun hand => hws hand.1, ih⟩

theorem head?_append_of_head? {α : Type} {l1 : List α} (l2 : List α) {c : α}
    (h : l1.head? = some c) : (l1 ++ l2).head? = some c := by
  cases l1 with
  | nil => cases h
  | cons x xs => exact h

theorem dropTrailing_reverse (q : Char → Bool) (l : List Char) :
    (dropTrailing q l).reverse = l.reverse.dropWhile q := by
  unfold dropTrailing
  rw [List.reverse_reverse]

theorem dropTrailing_decomp (q : Char → Bool) (l : List Char) :
    ∃ w, l = dropTrailing q l ++ w := by
  refine ⟨(l.reverse.takeWhile q).reverse, ?_⟩
  show l = (l.reverse.dropWhile q).reverse ++ (l.reverse.takeWhile q).reverse
  rw [← List.reverse_append, List.takeWhile_append_dropWhile,
    List.reverse_reverse]

theorem getLast?_dropTrailing {q : Char → Bool} {l : List Char} {c : Char}
    (h : (dropTrailing q l).getLast? = some c) : q c = false := by
  rw [← List.head?_reverse, dropTrailing_reverse] at h
  exact head?_dropWhile_not _ c h

theorem cleanCore_props (s : List Char) :
    (∀ c ∈ cleanCore s, c.toNat < 128) ∧
    (∀ c ∈ cleanCore s, pyWs c = true → c = ' ') ∧
    (cleanCore s).Chain' (fun a b => ¬(pyWs a = true ∧ pyWs b = true)) ∧
    (∀ c, (cleanCore s).head? = some c → pyWs c = false) ∧
    (∀ c, (cleanCore s).getLast? = some c → pyWs c = false ∧ c ≠ ',') := by
  unfold cleanCore
  generalize (removeAllStr "Tagalog"
    (removeAllStr "اَلْعَرَبِيَّةُ"
      (removeAllStr "Tiếng Việt"
        (removeAllStr "español"
          (removeAllStr "한국어"
            (removeAllStr "汉语" s))))) : List Char) = F
  set Af := F.filter (fun c => c.toNat < 128) with hAf
  set A := collapseWs Af with hA
  set B := A.dropWhile pyWs with hB
  set C := dropTrailing pyWs B with hC
  have hAf_ascii : ∀ c ∈ Af, c.toNat < 128 := by
    intro c hc
    have := (List.mem_filter.mp hc).2
    exact of_decide_eq_true this
  have hA_ascii : ∀ c ∈ A, c.toNat < 128 := by
    intro c hc
    rcases collapseWs_subset Af c hc with h | h
    · rw [h]; decide
    · exact hAf_ascii c h
  have hA_ws : ∀ c ∈ A, pyWs c = true → c = ' ' := collapseWs_ws_eq_space Af
  have hA_chain : A.Chain' (fun a b => ¬(pyWs a = true ∧ pyWs b = true)) :=
    collapseWs_chain Af
  have hB_sub : ∀ c ∈ B, c ∈ A :=
    fun c hc => ((List.dropWhile_suffix pyWs).sublist).subset hc
  have hB_chain : B.Chain' (fun a b => ¬(pyWs a = true ∧ pyWs b = true)) := by
    obtain ⟨w, hw⟩ := List.dropWhile_suffix (l := A) pyWs
    rw [← hw] at hA_chain
    exact (List.chain'_append.mp hA_chain).2.1
  have hB_head : ∀ c, B.head? = some c → pyWs c = false :=
    fun c hc => head?_dropWhile_not A c hc
  obtain ⟨w1, hw1⟩ := dropTrailing_decomp pyWs B
  have hC_sub : ∀ c ∈ C, c ∈ B := by
    intro c hc
    rw [hw1]
    exact List.mem_append_left w1 hc
  have hC_chain : C.Chain' (fun a b => ¬(pyWs a = true ∧ pyWs b = true)) := by
    rw [hw1] at hB_chain
    exact (List.chain'_append.mp hB_chain).1
  have hC_head : ∀ c, C.head? = some c → pyWs c = false := by
    intro c hc
    apply hB_head
    rw [hw1]
    exact head?_append_of_head? w1 hc
  obtain ⟨w2, hw2⟩ := dropTrailing_decomp (fun c => pyWs c || c = ',') C
  have hD_sub : ∀ c ∈ dropTrailing (fun c => pyWs c || c = ',') C, c ∈ C := by
    intro c hc
    rw [hw2]
    exact List.mem_append_left w2 hc
  refine ⟨?_, ?_, ?_, ?_, ?_⟩
  · exact fun c hc => hA_ascii c (hB_sub c (hC_sub c (hD_sub c hc)))
  · exact fun c hc => hA_ws c (hB_sub c (hC_sub c (hD_sub c hc)))
  · rw [hw2] at hC_chain
    exact (List.chain'_append.mp hC_chain).1
  · intro c hc
    apply hC_head
    rw [hw2]
    exact head?_append_of_head? w2 hc
  · intro c hc
    have hq := getLast?_dropTrailing hc
    rcases Bool.or_eq_false_iff.mp hq with ⟨h1, h2⟩
    exact ⟨h1, of_decide_eq_false h2⟩

/-- C10: the title normaliser is total and always yields a non-empty
ASCII-only string whose whitespace is single spaces with no two adjacent,
no leading or trailing whitespace and no trailing comma; the empty input,
and any input the normalisation pipeline reduces to the empty string,
yield "Unknown Form". -/
theorem c10_clean_title_normal (title : String) :
    cleanTitleToEnglish title ≠ "" ∧
    (∀ c ∈ (cleanTitleToEnglish title).data, c.toNat < 128) ∧
    (∀ c ∈ (cleanTitleToEnglish title).data, pyWs c = true → c = ' ') ∧
    (cleanTitleToEnglish title).data.Chain'
      (fun a b => ¬(pyWs a = true ∧ pyWs b = true)) ∧
    (∀ c, (cleanTitleToEnglish title).data.head? = some c → pyWs c = false) ∧
    (∀ c, (cleanTitleToEnglish title).data.getLast? = some c →
      pyWs c = false ∧ c ≠ ',') ∧
    cleanTitleToEnglish "" = "Unknown Form" ∧
    (cleanCore title.data = [] → cleanTitleToEnglish title = "Unknown Form") := by
  have hunk : ("Unknown Form" : String) ≠ "" ∧
      (∀ c ∈ ("Unknown Form" : String).data, c.toNat < 128) ∧
      (∀ c ∈ ("Unknown Form" : String).data, pyWs c = true → c = ' ') ∧
      ("Unknown Form" : String).data.Chain'
        (fun a b => ¬(pyWs a = true ∧ pyWs b = true)) ∧
      (∀ c, ("Unknown Form" : String).data.head? = some c → pyWs c = false) ∧
      (∀ c, ("Unknown Form" : String).data.getLast? = some c →
        pyWs c = false ∧ c ≠ ',') := by
    refine ⟨by decide, by decide, by decide, ?_, ?_, ?_⟩
    · repeat refine List.chain'_cons.mpr ⟨by decide, ?_⟩
      exact List.chain'_singleton _
    · intro c hc
      rw [show ("Unknown Form" : String).data.head? = some 'U' from rfl] at hc
      injection hc with h2
      rw [← h2]
      rfl
    · intro c hc
      rw [show ("Unknown Form" : String).data.getLast? = some 'm' from rfl] at hc
      injection hc with h2
      rw [← h2]
      exact ⟨rfl, by decide⟩
  unfold cleanTitleToEnglish
  by_cases h0 : title = ""
  · rw [if_pos h0]
    exact ⟨hunk.1, hunk.2.1, hunk.2.2.1, hunk.2.2.2.1, hunk.2.2.2.2.1,
      hunk.2.2.2.2.2, by rw [if_pos rfl], fun _ => rfl⟩
  · rw [if_neg h0]
    by_cases h1 : cleanCore title.data = []
    · rw [if_pos h1]
      exact ⟨hunk.1, hunk.2.1, hunk.2.2.1, hunk.2.2.2.1, hunk.2.2.2.2.1,
        hunk.2.2.2.2.2, by rw [if_pos rfl], fun _ => rfl⟩
    · rw [if_neg h1]
      have hp := cleanCore_props title.data
      have hdata : (String.mk (cleanCore title.data)).data =
          cleanCore title.data := rfl
      refine ⟨?_, ?_, ?_, ?_, ?_, ?_, by rw [if_pos rfl], ?_⟩
      · intro hcon
        exact h1 (congrArg String.data hcon)
      · rw [hdata]; exact hp.1
      · rw [hdata]; exact hp.2.1
      · rw [hdata]; exact hp.2.2.1
      · rw [hdata]; exact hp.2.2.2.1
      · rw [hdata]; exact hp.2.2.2.2
      · intro hcon
        exact absurd hcon h1

/-- C10 witness: an input the pipeline reduces to nothing — a title that
is exactly a language marker — yields the "Unknown Form" default. -/
theorem c10_witness :
    cleanTitleToEnglish "汉语" = "Unknown Form" :=
  (c10_clean_title_normal "汉语").2.2.2.2.2.2.2 (by with_unfolding_all rfl)
